import Mathlib

/-!
Shallow embedding of the SRGP (sequentially rejective graphical procedure)
multiple-testing engine of `mtp_mechanisms.py`.

Modelling conventions:
* Machine floats become exact rationals (`ℚ`).  Conservation statements that the
  spec gives "to floating-point tolerance 1e-9" are proved exactly.
* External numerical library calls (`np.log`, `np.sqrt`, `scipy.stats.norm.ppf`,
  `np.corrcoef`, and the external Rscript quantile solver) are not code of this
  repository; they are abstracted as fields of a `NumEnv` parameter, so every
  repository function is embedded faithfully over an arbitrary environment and
  can be evaluated at concrete environments.
* Python exceptions become an `Except PyExn` result; the only exception sites
  reachable in the embedded fragment are list indexing (`IndexError`), missing
  attributes (`AttributeError`) and unexpected keyword arguments (`TypeError`).
* `np.random` draws are abstracted as an explicit input stream of draws.
-/

inductive PyExn where
  | typeError
  | indexError
  | attributeError
  deriving DecidableEq, Repr

/-- Abstracted external numerical primitives (numpy / scipy / Rscript).
`ppf` stands for `scipy.stats.norm.ppf`, i.e. the standard-normal quantile
function Φ⁻¹ (a strictly monotone function ℝ → ℝ); `rsolve` stands for the
external Rscript multivariate-normal quantile solver invoked by
`_solve_t_statistic_thres` when prior thresholds exist (arguments: covariance
matrix, alpha level, prior thresholds). -/
structure NumEnv where
  log : ℚ → ℚ
  sqrt : ℚ → ℚ
  ppf : ℚ → ℚ
  corrcoef : List (List ℚ) → List (List ℚ)
  rsolve : List (List ℚ) → ℚ → List ℚ → ℚ

/-- Embedding of `np.mean` of a list (division by zero yields 0 in `ℚ`, matching a path the
claims never exercise). -/
def npMean (xs : List ℚ) : ℚ := xs.sum / xs.length

/-- Embedding of `np.var` of a list (population variance, numpy default `ddof=0`). -/
def npVar (xs : List ℚ) : ℚ :=
  ((xs.map fun x => (x - npMean xs) ^ 2).sum) / xs.length

/-- The clamp applied in `get_losses` (mtp_mechanisms.py line 13):
`np.maximum(np.minimum(1 - 1e-10, pred_y), 1e-10)`. -/
def clampProb (x : ℚ) : ℚ := max (min (1 - 1 / 10 ^ 10) x) (1 / 10 ^ 10)

/-- Embedding of `get_losses` (mtp_mechanisms.py lines 11-15): per-unit negative log
likelihood of predictions `predY` against outcomes `testY`, with predictions
clamped away from 0 and 1 before logarithms are taken. -/
def get_losses (env : NumEnv) (testY predY : List ℚ) : List ℚ :=
  List.zipWith (fun y p => -(env.log p * y + env.log (1 - p) * (1 - y)))
    testY (predY.map clampProb)

/-! ## GraphicalBonfMTP tree state (`Node`, `_create_children`, `_do_tree_update`) -/

/-- The per-node data of `Node` that the graphical procedures read back:
its weight plus (for `GraphicalFFSMTP`) the retained loss-difference vector
(`observe_losses`) and solved threshold (`set_test_thres`), which start unset.
The diagnostic `history` field of `Node` is not modelled. -/
structure BonfNode where
  weight : ℚ
  testLosses : Option (List ℚ) := none
  testThres : Option ℚ := none
  deriving DecidableEq, Repr

/-- The list `[self.success_weight * np.power(1 - self.success_weight, i) for i in
range(start, n)]` with `start = query_idx + 1` — the geometric weight list in
`_create_children` (lines 138-140). -/
def geomWeights (sw : ℚ) (start n : ℕ) : List ℚ :=
  (List.range (n - start)).map fun j => sw * (1 - sw) ^ (start + j)

/-- The assignment `node.children_weights[-1] = 1 - np.sum(node.children_weights[:-1])`
(line 142): replace the last entry so the list sums to 1. -/
def absorbLast : List ℚ → List ℚ
  | [] => []
  | w :: ws => (w :: ws).dropLast ++ [1 - (w :: ws).dropLast.sum]

/-- The relative children weights computed by
`GraphicalBonfMTP._create_children(node, query_idx)` (lines 138-142). -/
def childrenWeightsRel (sw : ℚ) (queryIdx : Int) (n : ℕ) : List ℚ :=
  absorbLast (geomWeights sw (queryIdx + 1).toNat n)

/-- The mutable state of `GraphicalBonfMTP` (and `GraphicalFFSMTP`, which
inherits `_do_tree_update` unchanged) that the tree-update step touches.
The lazily materialised tree is represented by its active sibling group:
`siblings` are the children of the active node's parent (the active node is
`siblings[parentChildIdx]`), and `curChildrenRel` is the active node's
precomputed `children_weights` list. -/
structure TreeState where
  numQueries : Int
  numAdaptQueries : ℕ
  alpha : ℚ
  successWeight : ℚ
  parentChildIdx : ℕ
  siblings : List BonfNode
  curChildrenRel : List ℚ
  localAlpha : Option ℚ
  testHist : List Bool
  deriving DecidableEq, Repr

/-- Embedding of `GraphicalBonfMTP._do_tree_update` (lines 164-185).  On success the active
node's weight is distributed over its precomputed children (which become the
new sibling group) and the pointer moves to the first child; on failure the
pointer moves to the next sibling; once the query counter reaches
`num_adapt_queries` the step returns early without touching the tree.
Out-of-range list indexing is an `IndexError`, as in Python. -/
def doTreeUpdate (s : TreeState) (res : Bool) : Except PyExn TreeState :=
  let nq := s.numQueries + 1
  if nq ≥ (s.numAdaptQueries : Int) then
    .ok { s with numQueries := nq }
  else
    let hist := s.testHist ++ [res]
    if res then
      match s.siblings[s.parentChildIdx]? with
      | none => .error .indexError
      | some cur =>
        let newSibs := s.curChildrenRel.map fun c =>
          ({ weight := c * cur.weight } : BonfNode)
        match newSibs[0]? with
        | none => .error .indexError
        | some first =>
          .ok { s with
            numQueries := nq
            testHist := hist
            parentChildIdx := 0
            siblings := newSibs
            curChildrenRel := childrenWeightsRel s.successWeight nq s.numAdaptQueries
            localAlpha := some (s.alpha * first.weight) }
    else
      let idx := s.parentChildIdx + 1
      match s.siblings[idx]? with
      | none => .error .indexError
      | some cur =>
        .ok { s with
          numQueries := nq
          testHist := hist
          parentChildIdx := idx
          curChildrenRel := childrenWeightsRel s.successWeight nq s.numAdaptQueries
          localAlpha := some (s.alpha * cur.weight) }

/-- Embedding of `GraphicalBonfMTP.set_num_queries` (lines 144-162): a start node of weight
1 with children weighted by `_create_children(start_node, -1)`, followed by the
synthetic weight-propagating `_do_tree_update(1)`. -/
def initBonf (alpha sw : ℚ) (n : ℕ) : Except PyExn TreeState :=
  doTreeUpdate
    { numQueries := -1
      numAdaptQueries := n
      alpha := alpha
      successWeight := sw
      parentChildIdx := 0
      siblings := [{ weight := 1 }]
      curChildrenRel := childrenWeightsRel sw (-1) n
      localAlpha := none
      testHist := [] } true

/-- Feed a sequence of test outcomes to the tree-update step, one
`_do_tree_update` per decision call. -/
def runBonf (s : TreeState) : List Bool → Except PyExn TreeState
  | [] => .ok s
  | r :: rs =>
    match doTreeUpdate s r with
    | .error e => .error e
    | .ok s2 => runBonf s2 rs

/-- Spec-language description of a redistributed sibling chain: the parent
weight `w` split geometrically with relative weights
`sw * (1 - sw) ^ (start + j)`, the last child absorbing the remainder so the
chain sums to `w` exactly. -/
def specGeomChain (sw w : ℚ) (start len : ℕ) : List ℚ :=
  if len = 0 then []
  else
    ((List.range (len - 1)).map fun j => w * (sw * (1 - sw) ^ (start + j))) ++
      [w - ((List.range (len - 1)).map fun j => w * (sw * (1 - sw) ^ (start + j))).sum]

/-- The state reached by `set_num_queries(2)` with `alpha = 1/10`,
`success_weight = 4/5` (used as a concrete instantiation input). -/
def bonfState2 : TreeState :=
  { numQueries := 0
    numAdaptQueries := 2
    alpha := 1/10
    successWeight := 4/5
    parentChildIdx := 0
    siblings := [{ weight := 4/5 }, { weight := 1/5 }]
    curChildrenRel := [1]
    localAlpha := some (2/25)
    testHist := [true] }

/-- A terminal tree state (counter has reached the budget), used as a concrete
instantiation input. -/
def bonfTermState : TreeState :=
  { numQueries := 2
    numAdaptQueries := 2
    alpha := 1/10
    successWeight := 1/2
    parentChildIdx := 0
    siblings := [{ weight := 1 }]
    curChildrenRel := []
    localAlpha := some (1/20)
    testHist := [true] }

/-! ## The threshold solver (`GraphicalFFSMTP`) -/

/-- Embedding of `GraphicalFFSMTP._solve_t_statistic_thres` (lines 210-227): with no prior
thresholds the critical value is `scipy.stats.norm.ppf(alpha_level)` evaluated
directly (no numerical solve); otherwise the external Rscript solver is run on
the covariance matrix, the alpha level and the prior thresholds. -/
def solveTStatThres (env : NumEnv) (estCov : List (List ℚ)) (priorThres : List ℚ)
    (alphaLevel : ℚ) : ℚ :=
  if priorThres.isEmpty then env.ppf alphaLevel
  else env.rsolve estCov alphaLevel priorThres

/-- Boolean-mask selection, numpy's `xs[mask]` (the mask may be longer than
`xs`, as with `subset_true[:-1]` applied implicitly by zipping). -/
def maskSelect {α : Type} (xs : List α) (mask : List Bool) : List α :=
  ((xs.zip mask).filter fun p => p.2).map fun p => p.1

/-- The restriction `est_cov[subset_true, :][:, subset_true]` (line 256). -/
def maskMatrix (m : List (List ℚ)) (mask : List Bool) : List (List ℚ) :=
  (maskSelect m mask).map fun row => maskSelect row mask

/-- The boolean array `subset_true` of `_get_min_t_stat_thres_approx`
(lines 252-255): `num_hypos + 1` entries, all `True` except the randomly drawn
prior indices, which are set to `False` (removed from the assumed-null set). -/
def subsetTrueMask (numHypos : ℕ) (drawnIdxs : List ℕ) : List Bool :=
  (List.range (numHypos + 1)).map fun j => decide (j ∉ drawnIdxs)

/-- One iteration of the robustness loop of `_get_min_t_stat_thres_approx`
(lines 251-263): drop the drawn prior hypotheses from the null configuration
(restricting the covariance to the remaining ones plus the current statistic,
and the prior thresholds to the remaining priors) and re-solve. -/
def drawThres (env : NumEnv) (estCov : List (List ℚ)) (priorThres : List ℚ)
    (alphaLevel : ℚ) (drawnIdxs : List ℕ) : ℚ :=
  let mask := subsetTrueMask priorThres.length drawnIdxs
  solveTStatThres env (maskMatrix estCov mask) (maskSelect priorThres mask) alphaLevel

/-- Embedding of `GraphicalFFSMTP._get_min_t_stat_thres_approx` (lines 229-265), the
`np.random` draws supplied as an explicit list `draws` standing for the
`num_tries` random configurations: each element `(c, idxs)` records the draws
`c = np.random.choice(num_hypos//2)` and
`idxs = np.random.choice(num_hypos, size=c+1)` of one loop iteration.
Solves the all-null threshold; when more than one prior hypothesis exists and
draws were requested, re-solves once per draw and returns the minimum
(`np.min(all_thres)`). -/
def getMinTStatThres (env : NumEnv) (estCov : List (List ℚ)) (priorThres : List ℚ)
    (alphaLevel : ℚ) (draws : List (ℕ × List ℕ)) : ℚ :=
  let thres := solveTStatThres env estCov priorThres alphaLevel
  if priorThres.length ≤ 1 ∨ draws.isEmpty then thres
  else (draws.map fun d => drawThres env estCov priorThres alphaLevel d.2).foldl min thres

/-- The constraints `np.random.choice` guarantees for one robustness draw
`(c, idxs)`: `c` is drawn from `range(num_hypos//2)`, the index list has
`rand_size = c + 1` entries (drawn with replacement), each in
`[0, num_hypos)`. -/
def validDraw (numHypos : ℕ) (d : ℕ × List ℕ) : Prop :=
  d.1 + 1 ≤ numHypos / 2 ∧ d.2.length = d.1 + 1 ∧ ∀ i ∈ d.2, i < numHypos

/-- The number of hypotheses a draw removes from the assumed-null
configuration: the count of indices among `0 … numHypos` marked `False` by
`subset_true`, i.e. the distinct drawn indices. -/
def numExcluded (numHypos : ℕ) (drawnIdxs : List ℕ) : ℕ :=
  ((List.range (numHypos + 1)).filter fun j => decide (j ∈ drawnIdxs)).length

/-- Formalisation of the spec's sentence for the robustness sampling (claim
C8): "draws `num_tries` random subsets of the prior hypotheses … re-solves
the threshold assuming only that subset is null" — i.e. the drawn subset (plus
the current statistic) is KEPT as the null configuration and all other priors
dropped.  Stated only to compare the spec's reading with the source, which
does the opposite (drops the drawn subset). -/
def getMinTStatThresSpecRead (env : NumEnv) (estCov : List (List ℚ))
    (priorThres : List ℚ) (alphaLevel : ℚ) (draws : List (ℕ × List ℕ)) : ℚ :=
  let thres := solveTStatThres env estCov priorThres alphaLevel
  if priorThres.length ≤ 1 ∨ draws.isEmpty then thres
  else (draws.map fun d =>
      let mask := (List.range (priorThres.length + 1)).map fun j =>
        decide (j ∈ d.2 ∨ j = priorThres.length)
      solveTStatThres env (maskMatrix estCov mask) (maskSelect priorThres mask)
        alphaLevel).foldl min thres

/-- A concrete numerical environment for instantiations: logarithm, square
root and quantile function replaced by the identity (any strictly monotone
stand-in for Φ⁻¹ serves for the properties at issue), correlation by the
identity on matrices, and the external solver by summing the prior
thresholds. -/
def envId : NumEnv :=
  { log := id, sqrt := id, ppf := id, corrcoef := id
    rsolve := fun _ _ priorThres => priorThres.sum }

/-! ## BinaryThresholdMTP / BonferroniThresholdMTP -/

/-- The configuration of `BonferroniThresholdMTP` after `set_num_queries`
(lines 47-54): the correction factor `2 ** num_adapt_queries` is fixed up
front and never changed by a decision call. -/
structure BonfThreshold where
  baseThreshold : ℚ
  alpha : ℚ
  numAdaptQueries : ℕ
  correctionFactor : ℚ
  deriving DecidableEq, Repr

/-- Embedding of `BonferroniThresholdMTP.__init__` plus `set_num_queries` (lines 47-54). -/
def bonfSetNumQueries (baseThreshold alpha : ℚ) (n : ℕ) : BonfThreshold :=
  { baseThreshold := baseThreshold
    alpha := alpha
    numAdaptQueries := n
    correctionFactor := 2 ^ n }

/-- Embedding of `BonferroniThresholdMTP.get_test_compare` (lines 56-78): approve (1) iff
the one-sided upper confidence bound of the mean loss difference at level
`alpha / correction_factor` is below zero.  The call reads the configuration
and mutates nothing. -/
def bonfGetTestCompare (env : NumEnv) (st : BonfThreshold)
    (testY predY prevPredY : List ℚ) : ℕ :=
  let lossNew := get_losses env testY predY
  let lossPrev := get_losses env testY prevPredY
  let lossDiffs := List.zipWith (fun a b => a - b) lossNew lossPrev
  let tStatSe := env.sqrt (npVar lossDiffs / lossDiffs.length)
  let upperCi := npMean lossDiffs + tStatSe * env.ppf (1 - st.alpha / st.correctionFactor)
  if upperCi < 0 then 1 else 0

/-! ## `Node.__init__` keyword acceptance (`GraphicalParallelMTP.set_num_queries`) -/

/-- The parameters accepted by `Node.__init__` (mtp_mechanisms.py line 85):
`weight, success_edge, history, parent`.  Its docstring (line 87) documents a
`subfam_root` parameter that the signature does not accept. -/
def nodeInitParams : List String :=
  ["weight", "success_edge", "history", "parent"]

/-- The keyword-argument lists of the `Node(...)` constructor calls that
`GraphicalParallelMTP.set_num_queries(n)` executes, in program order: the
parallel-chain root (line 364, weight passed positionally), the `n` chain
nodes of the loop (line 379), the adaptive root (line 392), then the two
children built by `_create_children` (lines 330 and 337). -/
def parallelCtorKwargs (n : ℕ) : List (List String) :=
  [["success_edge", "history", "subfam_root"]] ++
  ((List.range n).map fun _ => ["success_edge", "history", "subfam_root", "parent"]) ++
  [["success_edge", "history", "subfam_root"]] ++
  [["success_edge", "history", "subfam_root", "parent"],
   ["success_edge", "history", "subfam_root", "parent"]]

/-- Python call semantics for the constructor sequence of `set_num_queries`:
the first `Node(...)` call passing a keyword that `Node.__init__` does not
accept raises `TypeError`; only if every call's keywords are accepted does the
initialization complete. -/
def parallelSetNumQueriesRun (n : ℕ) : Except PyExn Unit :=
  if (parallelCtorKwargs n).all (fun kws => kws.all fun k => decide (k ∈ nodeInitParams))
  then .ok () else .error .typeError

/-! ## `GraphicalParallelMTP._do_tree_update` -/

/-- State of `GraphicalParallelMTP` as touched by its `_do_tree_update`
(lines 458-480).  As written, `Node.__init__` rejects the `subfam_root`
keyword its docstring documents (claim C5), so in the source every call into
this code path dies in `_create_children`; the state machine below models
`Node` as documented (`subfam_root` accepted) so the update's semantics can
be stated.  The prespecified ("parallel") chain is the list of its nodes'
weights plus the active index; the adaptive tree is the active node's weight
together with the weights currently stored in its `success`/`failure`
children. -/
structure ParState where
  numQueries : ℕ
  numAdaptQueries : ℕ
  alpha : ℚ
  successWeight : ℚ
  parallelFrac : ℚ
  alphaAllocMaxDepth : ℕ
  parWeights : List ℚ
  parIdx : ℕ
  adaptWeight : ℚ
  adaptSuccWeight : ℚ
  adaptFailWeight : ℚ
  adaptLocalAlpha : Option ℚ
  parLocalAlpha : Option ℚ
  testHist : List Bool
  parTestHist : List Bool
  deriving DecidableEq, Repr

/-- Embedding of `GraphicalParallelMTP._create_children` (lines 324-343): both the
`success` and the `failure` child get weight
`(1 - parallel_ratio) / 2 ** alpha_alloc_max_depth` while
`num_queries < alpha_alloc_max_depth`, else weight 0. -/
def parChildWeight (parallelFrac : ℚ) (depth nq : ℕ) : ℚ :=
  if nq < depth then (1 - parallelFrac) / 2 ^ depth else 0

/-- Embedding of `GraphicalParallelMTP._do_tree_update(par_tree_res, adapt_tree_res)`
(lines 458-480): the adaptive transition `earn`s the traversed edge's weight
(`source.weight × edge fraction`, `Node.earn` lines 103-105) into the
destination child and moves there, fresh children are created for the new
adaptive node, and the prespecified chain's pointer advances by one node
regardless of either outcome (stepping past the chain's end hits `None`, an
`AttributeError`). -/
def doTreeUpdatePar (s : ParState) (parRes adaptRes : Bool) : Except PyExn ParState :=
  let nq := s.numQueries + 1
  let newAdaptW :=
    if adaptRes then s.adaptSuccWeight + s.adaptWeight * s.successWeight
    else s.adaptFailWeight + s.adaptWeight * (1 - s.successWeight)
  let cw := parChildWeight s.parallelFrac s.alphaAllocMaxDepth nq
  match s.parWeights[s.parIdx + 1]? with
  | none => .error .attributeError
  | some pw =>
    .ok { s with
      numQueries := nq
      parTestHist := s.parTestHist ++ [parRes]
      testHist := s.testHist ++ [adaptRes]
      adaptWeight := newAdaptW
      adaptLocalAlpha := some (newAdaptW * s.alpha)
      adaptSuccWeight := cw
      adaptFailWeight := cw
      parIdx := s.parIdx + 1
      parLocalAlpha := some (pw * s.alpha) }

/-- A concrete two-chain state used as instantiation input: the prespecified
chain at its root (weight 1/2, `success_edge = 1`), successor weight 1/4. -/
def parStateEx : ParState :=
  { numQueries := 0
    numAdaptQueries := 2
    alpha := 1/10
    successWeight := 4/5
    parallelFrac := 9/10
    alphaAllocMaxDepth := 0
    parWeights := [1/2, 1/4, 0]
    parIdx := 0
    adaptWeight := 1/10
    adaptSuccWeight := 0
    adaptFailWeight := 0
    adaptLocalAlpha := some (1/100)
    parLocalAlpha := some (1/20)
    testHist := []
    parTestHist := [] }

/-- The state `doTreeUpdatePar parStateEx true true` produces. -/
def parStateEx2 : ParState :=
  { numQueries := 1
    numAdaptQueries := 2
    alpha := 1/10
    successWeight := 4/5
    parallelFrac := 9/10
    alphaAllocMaxDepth := 0
    parWeights := [1/2, 1/4, 0]
    parIdx := 1
    adaptWeight := 2/25
    adaptSuccWeight := 0
    adaptFailWeight := 0
    adaptLocalAlpha := some (1/125)
    parLocalAlpha := some (1/40)
    testHist := [true]
    parTestHist := [true] }

/-! ## `GraphicalFFSMTP.get_test_compare` -/

/-- Sequence a list of optional values; a `none` corresponds to reading a
`Node` attribute (`test_losses` / `test_thres`) that was never stored, an
`AttributeError` in Python. -/
def seqOpt {α : Type} : List (Option α) → Option (List α)
  | [] => some []
  | none :: _ => none
  | some a :: rest => (seqOpt rest).map fun l => a :: l

/-- Embedding of `GraphicalFFSMTP.get_test_compare` (lines 267-293): compute the loss
differences, store them on the active node (`observe_losses`), collect the
loss vectors and thresholds of the siblings already tested under the same
parent (`parent.children[:parent_child_idx]`, lines 204-208), build the
correlation matrix of priors plus the current vector (`[[1]]` when no
priors), solve the critical value (`num_tries` defaults to 0, so no
robustness draws), store it on the node (`set_test_thres`), decide
`test_stat < t_thres`, and advance the tree with `_do_tree_update`. -/
def ffsGetTestCompare (env : NumEnv) (s : TreeState)
    (testY predY prevPredY : List ℚ) : Except PyExn (Bool × TreeState) :=
  let lossNew := get_losses env testY predY
  let lossPrev := get_losses env testY prevPredY
  let lossDiffs := List.zipWith (fun a b => a - b) lossNew lossPrev
  let stdErr := env.sqrt (npVar lossDiffs / lossPrev.length)
  match s.siblings[s.parentChildIdx]? with
  | none => .error .indexError
  | some cur =>
    let obsNode : BonfNode := { cur with testLosses := some lossDiffs }
    let s1 := { s with siblings := s.siblings.set s.parentChildIdx obsNode }
    match seqOpt ((s1.siblings.take s1.parentChildIdx).map fun c => c.testLosses),
          seqOpt ((s1.siblings.take s1.parentChildIdx).map fun c => c.testThres),
          s1.localAlpha with
    | some priorDiffs, some priorThres, some la =>
      let estCorr := if priorDiffs.length ≠ 0
        then env.corrcoef (priorDiffs ++ [lossDiffs]) else [[1]]
      let tThres := getMinTStatThres env estCorr priorThres la []
      let solvedNode : BonfNode :=
        { cur with testLosses := some lossDiffs, testThres := some tThres }
      let s2 := { s1 with siblings := s1.siblings.set s1.parentChildIdx solvedNode }
      let testStat := npMean lossDiffs / stdErr
      let r := decide (testStat < tThres)
      (doTreeUpdate s2 r).map fun t => (r, t)
    | _, _, _ => .error .attributeError

/-- A concrete FFS tree state (fresh active node, no previously tested
siblings) used as instantiation input. -/
def ffsStateEx : TreeState :=
  { numQueries := 0
    numAdaptQueries := 2
    alpha := 1/10
    successWeight := 1/2
    parentChildIdx := 0
    siblings := [{ weight := 1/2 }, { weight := 1/2 }]
    curChildrenRel := [1]
    localAlpha := some (1/20)
    testHist := [true] }

/-! ## Helper lemmas about the redistribution lists -/

lemma sum_map_mul_w (l : List ℚ) (w : ℚ) :
    (l.map fun c => c * w).sum = l.sum * w := by
  induction l with
  | nil => simp
  | cons a t ih => simp [ih]; ring

lemma sum_map_w_mul {α : Type} (l : List α) (f : α → ℚ) (w : ℚ) :
    (l.map fun j => w * f j).sum = w * (l.map f).sum := by
  induction l with
  | nil => simp
  | cons a t ih => simp [ih]; ring

lemma absorbLast_sum (ws : List ℚ) (h : ws ≠ []) : (absorbLast ws).sum = 1 := by
  match ws, h with
  | w :: ws, _ =>
    simp [absorbLast, List.sum_append]

lemma absorbLast_length (ws : List ℚ) : (absorbLast ws).length = ws.length := by
  match ws with
  | [] => rfl
  | w :: ws => simp [absorbLast]

lemma geomWeights_length (sw : ℚ) (start n : ℕ) :
    (geomWeights sw start n).length = n - start := by
  simp [geomWeights]

lemma childrenWeightsRel_length (sw : ℚ) (q : Int) (n : ℕ) :
    (childrenWeightsRel sw q n).length = n - (q + 1).toNat := by
  rw [childrenWeightsRel, absorbLast_length, geomWeights_length]

lemma childrenWeightsRel_sum (sw : ℚ) (q : Int) (n : ℕ) (h : (q + 1).toNat < n) :
    (childrenWeightsRel sw q n).sum = 1 := by
  apply absorbLast_sum
  apply List.ne_nil_of_length_pos
  rw [geomWeights_length]
  omega

lemma dropLast_range (len : ℕ) : (List.range len).dropLast = List.range (len - 1) := by
  match len with
  | 0 => rfl
  | k + 1 => rw [List.range_succ, List.dropLast_concat]; rfl

/-- The absorbed geometric list, scaled by the parent weight `w`, is exactly the
spec-language chain `specGeomChain`. -/
lemma childrenWeightsRel_map_mul (sw w : ℚ) (q : Int) (n : ℕ)
    (h : (q + 1).toNat < n) :
    (childrenWeightsRel sw q n).map (fun c => c * w) =
      specGeomChain sw w (q + 1).toNat (n - (q + 1).toNat) := by
  set start := (q + 1).toNat with hstart
  have hlen : 0 < n - start := by omega
  have hne : ((List.range (n - start)).map fun j => sw * (1 - sw) ^ (start + j)) ≠ [] := by
    apply List.ne_nil_of_length_pos
    simpa using hlen
  obtain ⟨a, t, hat⟩ := List.exists_cons_of_ne_nil hne
  rw [childrenWeightsRel, geomWeights, hat, absorbLast, ← hat,
    ← List.map_dropLast, dropLast_range, specGeomChain, if_neg (by omega)]
  simp only [List.map_append, List.map_map, List.map_cons, List.map_nil]
  have hfun : ((fun c => c * w) ∘ fun j => sw * (1 - sw) ^ (start + j)) =
      fun j => w * (sw * (1 - sw) ^ (start + j)) := by
    funext j; simp [Function.comp]; ring
  rw [hfun]
  congr 1
  simp only [sum_map_w_mul, List.cons.injEq, and_true]
  ring

/-! ## The tree invariant -/

/-- Invariant of reachable `GraphicalBonfMTP` tree states: while the tree is
not terminal, the active node's relative children weights are exactly those
computed by `_create_children` at the current query index, and the current
sibling group always holds enough further siblings for every remaining
failure transition. -/
def TreeInv (s : TreeState) : Prop :=
  -1 ≤ s.numQueries ∧
  (s.numQueries < (s.numAdaptQueries : Int) →
    s.curChildrenRel =
      childrenWeightsRel s.successWeight s.numQueries s.numAdaptQueries ∧
    (s.numAdaptQueries : Int) - s.numQueries ≤
      (s.siblings.length : Int) - (s.parentChildIdx : Int))

lemma doTreeUpdate_terminal (s : TreeState) (r : Bool)
    (h : (s.numAdaptQueries : Int) ≤ s.numQueries + 1) :
    doTreeUpdate s r = .ok { s with numQueries := s.numQueries + 1 } := by
  unfold doTreeUpdate
  rw [if_pos (by omega)]

lemma doTreeUpdate_success_eq (s : TreeState)
    (h0 : -1 ≤ s.numQueries)
    (hq : s.curChildrenRel =
      childrenWeightsRel s.successWeight s.numQueries s.numAdaptQueries)
    (hidx : s.parentChildIdx < s.siblings.length)
    (hlt : s.numQueries + 1 < (s.numAdaptQueries : Int)) :
    ∃ cur, s.siblings[s.parentChildIdx]? = some cur ∧
      doTreeUpdate s true = .ok { s with
        numQueries := s.numQueries + 1
        testHist := s.testHist ++ [true]
        parentChildIdx := 0
        siblings := s.curChildrenRel.map fun c =>
          ({ weight := c * cur.weight } : BonfNode)
        curChildrenRel :=
          childrenWeightsRel s.successWeight (s.numQueries + 1) s.numAdaptQueries
        localAlpha := some (s.alpha * (s.curChildrenRel.headI * cur.weight)) } := by
  have hne : s.curChildrenRel ≠ [] := by
    apply List.ne_nil_of_length_pos
    rw [hq, childrenWeightsRel_length]
    omega
  obtain ⟨c0, rest, hc⟩ := List.exists_cons_of_ne_nil hne
  have hsome : s.siblings[s.parentChildIdx]? = some s.siblings[s.parentChildIdx] :=
    List.getElem?_eq_getElem hidx
  refine ⟨s.siblings[s.parentChildIdx], hsome, ?_⟩
  unfold doTreeUpdate
  rw [if_neg (by omega)]
  rw [hsome]
  simp only [if_true]
  rw [hc]
  simp [List.headI]

lemma doTreeUpdate_failure_eq (s : TreeState)
    (hidx : s.parentChildIdx + 1 < s.siblings.length)
    (hlt : s.numQueries + 1 < (s.numAdaptQueries : Int)) :
    ∃ cur, s.siblings[s.parentChildIdx + 1]? = some cur ∧
      doTreeUpdate s false = .ok { s with
        numQueries := s.numQueries + 1
        testHist := s.testHist ++ [false]
        parentChildIdx := s.parentChildIdx + 1
        curChildrenRel :=
          childrenWeightsRel s.successWeight (s.numQueries + 1) s.numAdaptQueries
        localAlpha := some (s.alpha * cur.weight) } := by
  have hsome : s.siblings[s.parentChildIdx + 1]? = some s.siblings[s.parentChildIdx + 1] :=
    List.getElem?_eq_getElem hidx
  refine ⟨s.siblings[s.parentChildIdx + 1], hsome, ?_⟩
  unfold doTreeUpdate
  rw [if_neg (by omega)]
  simp only [Bool.false_eq_true, if_false]
  rw [hsome]

lemma treeInv_step (s : TreeState) (r : Bool) (hInv : TreeInv s) :
    ∃ t, doTreeUpdate s r = .ok t ∧ TreeInv t ∧
      t.alpha = s.alpha ∧ t.successWeight = s.successWeight ∧
      t.numAdaptQueries = s.numAdaptQueries := by
  obtain ⟨h0, hrest⟩ := hInv
  by_cases hterm : (s.numAdaptQueries : Int) ≤ s.numQueries + 1
  · exact ⟨_, doTreeUpdate_terminal s r hterm,
      ⟨by simp; omega, by intro h; simp at h; omega⟩, rfl, rfl, rfl⟩
  · have hlt : s.numQueries + 1 < (s.numAdaptQueries : Int) := by omega
    obtain ⟨hrel, hineq⟩ := hrest (by omega)
    cases r with
    | true =>
      have hidx : s.parentChildIdx < s.siblings.length := by omega
      obtain ⟨cur, hcur, heq⟩ := doTreeUpdate_success_eq s h0 hrel hidx hlt
      refine ⟨_, heq, ⟨by simp; omega, ?_⟩, rfl, rfl, rfl⟩
      intro _
      constructor
      · rfl
      · have : (s.curChildrenRel.map fun c =>
            ({ weight := c * cur.weight } : BonfNode)).length =
            s.numAdaptQueries - (s.numQueries + 1).toNat := by
          rw [List.length_map, hrel, childrenWeightsRel_length]
        simp only [this]
        push_cast
        omega
    | false =>
      have hidx : s.parentChildIdx + 1 < s.siblings.length := by omega
      obtain ⟨cur, hcur, heq⟩ := doTreeUpdate_failure_eq s hidx hlt
      refine ⟨_, heq, ⟨by simp; omega, ?_⟩, rfl, rfl, rfl⟩
      intro _
      constructor
      · rfl
      · simp only []
        push_cast
        omega

lemma runBonf_ok (outcomes : List Bool) :
    ∀ s : TreeState, TreeInv s →
      ∃ t, runBonf s outcomes = .ok t ∧ TreeInv t ∧
        t.alpha = s.alpha ∧ t.successWeight = s.successWeight ∧
        t.numAdaptQueries = s.numAdaptQueries := by
  induction outcomes with
  | nil => exact fun s hs => ⟨s, rfl, hs, rfl, rfl, rfl⟩
  | cons r rs ih =>
    intro s hs
    obtain ⟨t, ht, hinv, ha, hw, hn⟩ := treeInv_step s r hs
    obtain ⟨u, hu, huinv, ha2, hw2, hn2⟩ := ih t hinv
    refine ⟨u, ?_, huinv, by rw [ha2, ha], by rw [hw2, hw], by rw [hn2, hn]⟩
    rw [runBonf, ht]
    exact hu

lemma initBonf_ok (alpha sw : ℚ) (n : ℕ) :
    ∃ s, initBonf alpha sw n = .ok s ∧ TreeInv s ∧
      s.alpha = alpha ∧ s.successWeight = sw ∧ s.numAdaptQueries = n := by
  by_cases hn : n = 0
  · subst hn
    refine ⟨_, doTreeUpdate_terminal _ true (by simp), ?_, rfl, rfl, rfl⟩
    exact ⟨by simp, by intro h; simp at h⟩
  · have hlt : (-1 : Int) + 1 < (n : Int) := by omega
    obtain ⟨cur, hcur, heq⟩ := doTreeUpdate_success_eq
      { numQueries := -1
        numAdaptQueries := n
        alpha := alpha
        successWeight := sw
        parentChildIdx := 0
        siblings := [{ weight := 1 }]
        curChildrenRel := childrenWeightsRel sw (-1) n
        localAlpha := none
        testHist := [] } (by norm_num) rfl (by simp) hlt
    refine ⟨_, heq, ?_, rfl, rfl, rfl⟩
    constructor
    · simp
    · intro _
      constructor
      · norm_num
      · have : ((childrenWeightsRel sw (-1) n).map fun c =>
            ({ weight := c * cur.weight } : BonfNode)).length = n := by
          rw [List.length_map, childrenWeightsRel_length]
          norm_num
        simp only [this]
        push_cast
        omega

/-- Any state reached by initializing and feeding a sequence of outcomes
satisfies the invariant. -/
lemma reachBonf (alpha sw : ℚ) (n : ℕ) (outcomes : List Bool) (s : TreeState)
    (h : ((initBonf alpha sw n).bind fun s0 => runBonf s0 outcomes) = .ok s) :
    TreeInv s ∧ s.alpha = alpha ∧ s.successWeight = sw ∧ s.numAdaptQueries = n := by
  obtain ⟨s0, h0, hinv0, ha0, hw0, hn0⟩ := initBonf_ok alpha sw n
  rw [h0] at h
  simp only [Except.bind] at h
  obtain ⟨t, ht, hinvt, hat, hwt, hnt⟩ := runBonf_ok outcomes s0 hinv0
  rw [ht] at h
  cases h
  exact ⟨hinvt, by rw [hat, ha0], by rw [hwt, hw0], by rw [hnt, hn0]⟩

/-! ## Claims C1, C3, C4: the tree-update step -/

/-- C1: Budget conservation.  For every sequence of outcomes fed to the
tree-update step of `GraphicalBonfMTP` (this step is inherited unchanged by
`GraphicalFFSMTP`; `GraphicalParallelMTP` overrides it), whenever a success
transition materializes the active node's continuation children and assigns
them weights, the sum of the children's weights equals the weight of their
common parent.  The embedding works in exact rational arithmetic, so the
equality is exact — in particular within the spec's 1e-9 tolerance — and no
weight is created or destroyed by the redistribution. -/
theorem C1_budget_conservation (alpha sw : ℚ) (n : ℕ) (outcomes : List Bool)
    (s : TreeState)
    (hrun : ((initBonf alpha sw n).bind fun s0 => runBonf s0 outcomes) = .ok s)
    (hlt : s.numQueries + 1 < (n : Int)) :
    ∃ cur t, s.siblings[s.parentChildIdx]? = some cur ∧
      doTreeUpdate s true = .ok t ∧
      (t.siblings.map fun c => c.weight).sum = cur.weight := by
  obtain ⟨hinv, ha, hw, hn⟩ := reachBonf alpha sw n outcomes s hrun
  subst ha hw hn
  obtain ⟨h0, hrest⟩ := hinv
  obtain ⟨hrel, hineq⟩ := hrest (by omega)
  have hidx : s.parentChildIdx < s.siblings.length := by omega
  obtain ⟨cur, hcur, heq⟩ := doTreeUpdate_success_eq s h0 hrel hidx hlt
  refine ⟨cur, _, hcur, heq, ?_⟩
  simp only [List.map_map, Function.comp]
  rw [show ((fun c => c.weight) ∘ fun c =>
      ({ weight := c * cur.weight } : BonfNode)) = fun c => c * cur.weight from rfl]
  rw [sum_map_mul_w, hrel,
    childrenWeightsRel_sum s.successWeight s.numQueries s.numAdaptQueries (by omega),
    one_mul]

/-- Witness for C1 at a concrete input: `alpha = 1/10`, `success_weight = 4/5`,
budget 2, no outcomes yet. -/
theorem C1_budget_conservation_witness :
    (((initBonf (1/10) (4/5) 2).bind fun s0 => runBonf s0 []) = .ok bonfState2) ∧
    (bonfState2.numQueries + 1 < (2 : Int)) ∧
    ∃ cur t, bonfState2.siblings[bonfState2.parentChildIdx]? = some cur ∧
      doTreeUpdate bonfState2 true = .ok t ∧
      (t.siblings.map fun c => c.weight).sum = cur.weight := by
  have h1 : ((initBonf (1/10) (4/5) 2).bind fun s0 => runBonf s0 []) = .ok bonfState2 := by
    simp [initBonf, doTreeUpdate, childrenWeightsRel, geomWeights, absorbLast,
      List.range_succ, runBonf, Except.bind, bonfState2]
    norm_num
  exact ⟨h1, by norm_num [bonfState2],
    C1_budget_conservation (1/10) (4/5) 2 [] bonfState2 h1 (by norm_num [bonfState2])⟩

/-- C3 counterexample: the `(num_total_queries+1)`-th invocation does NOT
raise.  With a budget of 2 queries, three invocations of the decision
entry point's tree update return normally (`Except.ok`), with the third call
leaving the tree untouched except for the counter; the code defines no
`BudgetExhaustedError` and `_do_tree_update` simply returns early once the
counter reaches the budget. -/
theorem C3_no_exhaustion_error_cex :
    ((initBonf (1/10) (1/2) 2).bind fun s0 => runBonf s0 [true, true, true]) =
      .ok { numQueries := 3
            numAdaptQueries := 2
            alpha := 1/10
            successWeight := 1/2
            parentChildIdx := 0
            siblings := [{ weight := 1/2 }]
            curChildrenRel := []
            localAlpha := some (1/20)
            testHist := [true, true] } := by
  simp [initBonf, doTreeUpdate, childrenWeightsRel, geomWeights, absorbLast,
    List.range_succ, runBonf, Except.bind]
  norm_num

/-- C3 (amended): invoking the decision entry point's tree update more than
`num_total_queries` times never raises: every run of any length returns
normally, and once the query counter has reached `num_total_queries` the
update step refuses further advancement, incrementing only the counter and
leaving the active node, sibling weights and histories unchanged (the tree is
terminal). -/
theorem C3_terminal_refusal (alpha sw : ℚ) (n : ℕ) (outcomes : List Bool) :
    (∃ s, ((initBonf alpha sw n).bind fun s0 => runBonf s0 outcomes) = .ok s) ∧
    ∀ (t : TreeState) (r : Bool), (t.numAdaptQueries : Int) ≤ t.numQueries + 1 →
      doTreeUpdate t r = .ok { t with numQueries := t.numQueries + 1 } := by
  constructor
  · obtain ⟨s0, h0, hinv0, _, _, _⟩ := initBonf_ok alpha sw n
    obtain ⟨t, ht, _⟩ := runBonf_ok outcomes s0 hinv0
    refine ⟨t, ?_⟩
    rw [h0]
    exact ht
  · exact fun t r h => doTreeUpdate_terminal t r h

/-- Witness for C3 (amended) at a concrete input: budget 1, two outcomes, and
a concrete terminal state. -/
theorem C3_terminal_refusal_witness :
    (∃ s, ((initBonf (1/10) (1/2) 1).bind fun s0 => runBonf s0 [true, true]) = .ok s) ∧
    ((bonfTermState.numAdaptQueries : Int) ≤ bonfTermState.numQueries + 1) ∧
    doTreeUpdate bonfTermState true =
      .ok { bonfTermState with numQueries := bonfTermState.numQueries + 1 } :=
  ⟨(C3_terminal_refusal (1/10) (1/2) 1 [true, true]).1,
    by norm_num [bonfTermState],
    (C3_terminal_refusal (1/10) (1/2) 1 [true, true]).2 bonfTermState true
      (by norm_num [bonfTermState])⟩

/-- C4 counterexample: the geometric exponents do NOT restart at `i = 0` at
every success.  With `success_weight = 4/5` and budget 3, the first real
success (after initialization) creates children with absolute weights
`[16/125, 84/125]`: the first continuation child's weight is
`(4/5 · 1/5) × (4/5)`, not `success_fraction × parent = 4/5 × 4/5 = 16/25`
as the claim's `i = 0` start would require; the discrepancy far exceeds the
1e-9 tolerance. -/
theorem C4_geom_start_cex :
    (((initBonf (1/10) (4/5) 3).bind fun s0 => doTreeUpdate s0 true).toOption.map
        fun t => t.siblings.map fun c => c.weight) = some [16/125, 84/125] ∧
    |(16 : ℚ)/125 - 4/5 * (4/5)| > 1/10 ^ 9 := by
  constructor
  · simp [initBonf, doTreeUpdate, childrenWeightsRel, geomWeights, absorbLast,
      List.range_succ, Except.bind, Except.toOption]
    norm_num
  · rw [show (16 : ℚ)/125 - 4/5 * (4/5) = -(64/125) by norm_num, abs_neg,
      abs_of_nonneg (by norm_num)]
    norm_num

/-- C4 (amended): on a success recorded at the active node, its weight is
redistributed over the freshly materialized chain of continuation children
with geometric relative weights `success_fraction × (1-success_fraction)^i`
for `i = k … num_total_queries - 1`, where `k` is the number of queries
consumed when the children's weights were computed (so only the root's
children start at `i = 0`), the last child absorbing the remainder so the sum
equals the parent's weight exactly; the active pointer then moves to the
first continuation child and its local alpha becomes `alpha × its weight`. -/
theorem C4_success_redistribution (alpha sw : ℚ) (n : ℕ) (outcomes : List Bool)
    (s : TreeState)
    (hrun : ((initBonf alpha sw n).bind fun s0 => runBonf s0 outcomes) = .ok s)
    (hlt : s.numQueries + 1 < (n : Int)) :
    ∃ cur t, s.siblings[s.parentChildIdx]? = some cur ∧
      doTreeUpdate s true = .ok t ∧
      (t.siblings.map fun c => c.weight) =
        specGeomChain sw cur.weight (s.numQueries + 1).toNat
          (n - (s.numQueries + 1).toNat) ∧
      t.parentChildIdx = 0 ∧
      t.localAlpha = some (alpha * (t.siblings.map fun c => c.weight).headI) := by
  obtain ⟨hinv, ha, hw, hn⟩ := reachBonf alpha sw n outcomes s hrun
  subst ha hw hn
  obtain ⟨h0, hrest⟩ := hinv
  obtain ⟨hrel, hineq⟩ := hrest (by omega)
  have hidx : s.parentChildIdx < s.siblings.length := by omega
  obtain ⟨cur, hcur, heq⟩ := doTreeUpdate_success_eq s h0 hrel hidx hlt
  have hne : s.curChildrenRel ≠ [] := by
    apply List.ne_nil_of_length_pos
    rw [hrel, childrenWeightsRel_length]
    omega
  obtain ⟨c0, rest, hc⟩ := List.exists_cons_of_ne_nil hne
  have hmapw : ((s.curChildrenRel.map fun c =>
      ({ weight := c * cur.weight } : BonfNode)).map fun c => c.weight) =
      s.curChildrenRel.map fun c => c * cur.weight := by
    rw [List.map_map]
    rfl
  refine ⟨cur, _, hcur, heq, ?_, rfl, ?_⟩
  · rw [hmapw, hrel]
    exact childrenWeightsRel_map_mul s.successWeight cur.weight s.numQueries
      s.numAdaptQueries (by omega)
  · rw [hmapw, hc]
    simp [List.headI]

/-- Witness for C4 (amended) at a concrete input: `alpha = 1/10`,
`success_weight = 4/5`, budget 2, no outcomes yet. -/
theorem C4_success_redistribution_witness :
    (((initBonf (1/10) (4/5) 2).bind fun s0 => runBonf s0 []) = .ok bonfState2) ∧
    (bonfState2.numQueries + 1 < (2 : Int)) ∧
    ∃ cur t, bonfState2.siblings[bonfState2.parentChildIdx]? = some cur ∧
      doTreeUpdate bonfState2 true = .ok t ∧
      (t.siblings.map fun c => c.weight) =
        specGeomChain (4/5) cur.weight (bonfState2.numQueries + 1).toNat
          (2 - (bonfState2.numQueries + 1).toNat) ∧
      t.parentChildIdx = 0 ∧
      t.localAlpha = some ((1/10) * (t.siblings.map fun c => c.weight).headI) := by
  have h1 : ((initBonf (1/10) (4/5) 2).bind fun s0 => runBonf s0 []) = .ok bonfState2 := by
    simp [initBonf, doTreeUpdate, childrenWeightsRel, geomWeights, absorbLast,
      List.range_succ, runBonf, Except.bind, bonfState2]
    norm_num
  exact ⟨h1, by norm_num [bonfState2],
    C4_success_redistribution (1/10) (4/5) 2 [] bonfState2 h1 (by norm_num [bonfState2])⟩

/-! ## Claims C2, C5, C6, C9, C10 -/

/-- C2 counterexample: with an empty list of prior thresholds the solver
returns `norm.ppf(alpha_level)` = Φ⁻¹(α), NOT Φ⁻¹(1−α) as claimed.
Instantiating the (strictly monotone) quantile function with the identity:
the value returned at `α = 1/4` differs from the claimed `ppf(1 − 1/4)`, and
the returned threshold increases — does not decrease — from `α = 1/4` to
`α = 1/2`. -/
theorem C2_solver_base_cex :
    solveTStatThres envId [[1]] [] (1/4) ≠ envId.ppf (1 - 1/4) ∧
    solveTStatThres envId [[1]] [] (1/4) < solveTStatThres envId [[1]] [] (1/2) := by
  constructor <;> norm_num [solveTStatThres, envId]

/-- C2 (amended): with an empty list of prior thresholds the solver returns
`ppf(alpha_level)` = Φ⁻¹(α) directly (no numerical solve) — the lower-tail
critical value, equal to −Φ⁻¹(1−α), matching the acceptance rule
`test_stat < threshold` — and, Φ⁻¹ being strictly monotone, the returned
threshold strictly INCREASES as α increases. -/
theorem C2_solver_base_case (env : NumEnv) (estCov : List (List ℚ)) :
    (∀ a : ℚ, solveTStatThres env estCov [] a = env.ppf a) ∧
    (StrictMono env.ppf → ∀ a1 a2 : ℚ, a1 < a2 →
      solveTStatThres env estCov [] a1 < solveTStatThres env estCov [] a2) := by
  refine ⟨fun a => rfl, fun hm a1 a2 h => ?_⟩
  show env.ppf a1 < env.ppf a2
  exact hm h

/-- Witness for C2 (amended): the identity as the strictly monotone quantile
function, `α` from 1/4 to 1/2. -/
theorem C2_solver_base_case_witness :
    StrictMono envId.ppf ∧ ((1 : ℚ)/4 < 1/2) ∧
    solveTStatThres envId [[1]] [] (1/4) = envId.ppf (1/4) ∧
    solveTStatThres envId [[1]] [] (1/4) < solveTStatThres envId [[1]] [] (1/2) := by
  have hm : StrictMono envId.ppf := strictMono_id
  exact ⟨hm, by norm_num, (C2_solver_base_case envId [[1]]).1 (1/4),
    (C2_solver_base_case envId [[1]]).2 hm (1/4) (1/2) (by norm_num)⟩

/-- C5: for every `num_adapt_queries ≥ 1`,
`GraphicalParallelMTP.set_num_queries` raises `TypeError` before completing:
its very first `Node(...)` construction (and every later one) passes the
keyword `subfam_root`, which `Node.__init__` does not accept — although its
docstring documents it; consequently no `GraphicalParallelMTP` decision call
is reachable after the documented initialization sequence. -/
theorem C5_parallel_init_type_error (n : ℕ) (_hn : 1 ≤ n) :
    parallelSetNumQueriesRun n = .error .typeError ∧
    "subfam_root" ∉ nodeInitParams := by
  constructor
  · have hhead : ((["success_edge", "history", "subfam_root"] : List String).all
        fun k => decide (k ∈ nodeInitParams)) = false := by decide
    have hmem : (["success_edge", "history", "subfam_root"] : List String) ∈
        parallelCtorKwargs n := by
      rw [parallelCtorKwargs]
      exact List.mem_append_left _ (List.mem_append_left _
        (List.mem_append_left _ (List.mem_singleton_self _)))
    unfold parallelSetNumQueriesRun
    rw [if_neg]
    intro h
    have hfalse := List.all_eq_true.mp h _ hmem
    rw [hhead] at hfalse
    exact Bool.false_ne_true hfalse
  · decide

/-- Witness for C5 at `num_adapt_queries = 1`. -/
theorem C5_parallel_init_type_error_witness :
    (1 ≤ 1) ∧ parallelSetNumQueriesRun 1 = .error .typeError ∧
    "subfam_root" ∉ nodeInitParams :=
  ⟨le_refl 1, C5_parallel_init_type_error 1 (le_refl 1)⟩

/-- C6 counterexample: the prespecified chain's transition performs NO earn
step.  Stepping the concrete state `parStateEx` (prespecified source node
weight 1/2 with `success_edge = 1`, destination weight 1/4), the
destination's weight after the update is still 1/4 and not
`1/4 + 1/2 × 1`, the value the claimed earn of the traversed edge's weight
into the destination would produce; `_do_tree_update` applies the earn to the
adaptive tree's transition instead. -/
theorem C6_prespecified_no_earn_cex :
    ((doTreeUpdatePar parStateEx true true).toOption.map
      fun t => t.parWeights.getD t.parIdx 0) = some (1/4) ∧
    ¬ ((1 : ℚ)/4 = 1/4 + 1/2 * 1) := by
  constructor
  · norm_num [doTreeUpdatePar, parStateEx, parChildWeight, Except.toOption]
  · norm_num

/-- C6 (amended): on every `GraphicalParallelMTP._do_tree_update` call the
prespecified chain's active pointer advances by exactly one node regardless of
either test's outcome and the chain's node weights are left unchanged (no
earn, no recomputed split on that chain); the explicit earn step belongs to
the ADAPTIVE tree's transition: the adaptive destination's weight becomes its
pre-assigned child weight plus the traversed edge's weight
`source.weight × edge fraction`. -/
theorem C6_parallel_advance (s : ParState) (parRes adaptRes : Bool) (t : ParState)
    (h : doTreeUpdatePar s parRes adaptRes = .ok t) :
    t.parIdx = s.parIdx + 1 ∧ t.parWeights = s.parWeights ∧
    t.adaptWeight = (if adaptRes then s.adaptSuccWeight + s.adaptWeight * s.successWeight
      else s.adaptFailWeight + s.adaptWeight * (1 - s.successWeight)) := by
  unfold doTreeUpdatePar at h
  cases hm : s.parWeights[s.parIdx + 1]? with
  | none => rw [hm] at h; cases h
  | some pw =>
    rw [hm] at h
    cases h
    exact ⟨rfl, rfl, rfl⟩

/-- Witness for C6 (amended) at the concrete state `parStateEx`. -/
theorem C6_parallel_advance_witness :
    doTreeUpdatePar parStateEx true true = .ok parStateEx2 ∧
    (parStateEx2.parIdx = parStateEx.parIdx + 1 ∧
     parStateEx2.parWeights = parStateEx.parWeights ∧
     parStateEx2.adaptWeight = (if true then
        parStateEx.adaptSuccWeight + parStateEx.adaptWeight * parStateEx.successWeight
      else parStateEx.adaptFailWeight + parStateEx.adaptWeight * (1 - parStateEx.successWeight))) := by
  have h : doTreeUpdatePar parStateEx true true = .ok parStateEx2 := by
    norm_num [doTreeUpdatePar, parStateEx, parStateEx2, parChildWeight]
  exact ⟨h, C6_parallel_advance parStateEx true true parStateEx2 h⟩

/-- C9: `BonferroniThresholdMTP` applies the fixed confidence level
`alpha / 2^num_total_queries` determined up front by `set_num_queries`: every
decision call accepts iff
`mean(loss_diff) + se · ppf(1 − alpha/2^n) < 0` (the configuration is
immutable, so the level is identical on every call), and with `n = 3` the
level is exactly `alpha/8`. -/
theorem C9_bonferroni_level (env : NumEnv) (bt alpha : ℚ) (n : ℕ)
    (testY predY prevPredY : List ℚ) :
    (bonfGetTestCompare env (bonfSetNumQueries bt alpha n) testY predY prevPredY = 1 ↔
      (let d := List.zipWith (fun a b => a - b) (get_losses env testY predY)
          (get_losses env testY prevPredY)
       npMean d + env.sqrt (npVar d / d.length) * env.ppf (1 - alpha / 2 ^ n) < 0)) ∧
    (bonfSetNumQueries bt alpha 3).alpha /
      (bonfSetNumQueries bt alpha 3).correctionFactor = alpha / 8 := by
  constructor
  · dsimp only [bonfGetTestCompare, bonfSetNumQueries]
    split
    · next hlt => simpa using hlt
    · next hge => simpa using hge
  · norm_num [bonfSetNumQueries]

/-- Membership in a `zipWith` comes from members of the two lists. -/
lemma exists_of_mem_zipWith {α β γ : Type} (f : α → β → γ) (c : γ) :
    ∀ (as : List α) (bs : List β), c ∈ List.zipWith f as bs →
      ∃ a ∈ as, ∃ b ∈ bs, c = f a b := by
  intro as
  induction as with
  | nil => intro bs h; simp at h
  | cons a as ih =>
    intro bs h
    cases bs with
    | nil => simp at h
    | cons b bs =>
      simp only [List.zipWith, List.mem_cons] at h
      rcases h with h | h
      · exact ⟨a, by simp, b, by simp, h⟩
      · obtain ⟨a2, ha, b2, hb, hc⟩ := ih bs h
        exact ⟨a2, by simp [ha], b2, by simp [hb], hc⟩

lemma clampProb_bounds (x : ℚ) :
    1 / 10 ^ 10 ≤ clampProb x ∧ clampProb x ≤ 1 - 1 / 10 ^ 10 := by
  constructor
  · exact le_max_right _ _
  · apply max_le
    · exact min_le_left _ _
    · norm_num

/-- C10: probability clamping at the loss boundary.  Every clamped prediction
lies in `[1e-10, 1 − 1e-10]`, so `get_losses` never takes a logarithm at 0 or
1; consequently, for outcome labels in `[0,1]` and any logarithm bounded (by
`B`) on that closed interval — as the true `np.log` is — every per-unit
negative-log-likelihood loss returned by `get_losses` is bounded by `B` in
absolute value, i.e. finite, even when the model predicts exactly 0 or 1. -/
theorem C10_losses_finite (env : NumEnv) (B : ℚ) (testY predY : List ℚ)
    (hy : ∀ y ∈ testY, 0 ≤ y ∧ y ≤ 1)
    (hB : ∀ x : ℚ, 1 / 10 ^ 10 ≤ x → x ≤ 1 - 1 / 10 ^ 10 → |env.log x| ≤ B) :
    (∀ p ∈ predY.map clampProb, 1 / 10 ^ 10 ≤ p ∧ p ≤ 1 - 1 / 10 ^ 10) ∧
    ∀ l ∈ get_losses env testY predY, |l| ≤ B := by
  constructor
  · intro p hp
    obtain ⟨x, _, rfl⟩ := List.mem_map.mp hp
    exact clampProb_bounds x
  · intro l hl
    obtain ⟨y, hyin, p, hpin, rfl⟩ :=
      exists_of_mem_zipWith _ l testY (predY.map clampProb) hl
    obtain ⟨x, _, rfl⟩ := List.mem_map.mp hpin
    obtain ⟨hy0, hy1⟩ := hy y hyin
    obtain ⟨hp0, hp1⟩ := clampProb_bounds x
    have h1 : |env.log (clampProb x)| ≤ B := hB _ hp0 hp1
    have h2 : |env.log (1 - clampProb x)| ≤ B := by
      apply hB <;> linarith
    have hBnn : 0 ≤ B := le_trans (abs_nonneg _) h1
    calc |-(env.log (clampProb x) * y + env.log (1 - clampProb x) * (1 - y))|
        = |env.log (clampProb x) * y + env.log (1 - clampProb x) * (1 - y)| :=
          abs_neg _
      _ ≤ |env.log (clampProb x) * y| + |env.log (1 - clampProb x) * (1 - y)| :=
          abs_add _ _
      _ = |env.log (clampProb x)| * y + |env.log (1 - clampProb x)| * (1 - y) := by
          rw [abs_mul, abs_mul, abs_of_nonneg hy0,
            abs_of_nonneg (show (0 : ℚ) ≤ 1 - y by linarith)]
      _ ≤ B * y + B * (1 - y) := by
          have := mul_le_mul_of_nonneg_right h1 hy0
          have := mul_le_mul_of_nonneg_right h2 (by linarith : (0:ℚ) ≤ 1 - y)
          linarith
      _ = B := by ring

/-- Witness for C10: identity logarithm (bounded by 1 on the clamp interval)
and a model predicting exactly 0 and exactly 1. -/
theorem C10_losses_finite_witness :
    (∀ y ∈ [(1 : ℚ), 0], 0 ≤ y ∧ y ≤ 1) ∧
    (∀ x : ℚ, 1 / 10 ^ 10 ≤ x → x ≤ 1 - 1 / 10 ^ 10 → |envId.log x| ≤ 1) ∧
    (∀ p ∈ [(0 : ℚ), 1].map clampProb, 1 / 10 ^ 10 ≤ p ∧ p ≤ 1 - 1 / 10 ^ 10) ∧
    ∀ l ∈ get_losses envId [1, 0] [0, 1], |l| ≤ 1 := by
  have hy : ∀ y ∈ [(1 : ℚ), 0], 0 ≤ y ∧ y ≤ 1 := by norm_num
  have hB : ∀ x : ℚ, 1 / 10 ^ 10 ≤ x → x ≤ 1 - 1 / 10 ^ 10 → |envId.log x| ≤ 1 := by
    intro x h1 h2
    show |x| ≤ 1
    rw [abs_of_nonneg (by linarith)]
    linarith
  obtain ⟨h3, h4⟩ := C10_losses_finite envId 1 [1, 0] [0, 1] hy hB
  exact ⟨hy, hB, h3, h4⟩

/-! ## Claims C7 and C8: the FFS decision flow and the robustness sampling -/

lemma take_set_eq {α : Type} (l : List α) (i : ℕ) (a : α) :
    (l.set i a).take i = l.take i := by
  induction l generalizing i with
  | nil => simp
  | cons x xs ih =>
    cases i with
    | zero => simp
    | succ j => simp [List.set_cons_succ, List.take_succ_cons, ih]

lemma seqOpt_map_some {α : Type} (l : List α) : seqOpt (l.map some) = some l := by
  induction l with
  | nil => rfl
  | cons a t ih => simp [seqOpt, ih]

lemma getMin_nil_draws (env : NumEnv) (estCov : List (List ℚ)) (priorThres : List ℚ)
    (alphaLevel : ℚ) :
    getMinTStatThres env estCov priorThres alphaLevel [] =
      solveTStatThres env estCov priorThres alphaLevel := by
  unfold getMinTStatThres
  simp

lemma foldl_min_le_init (l : List ℚ) (a : ℚ) : l.foldl min a ≤ a := by
  induction l generalizing a with
  | nil => exact le_refl a
  | cons x xs ih => exact le_trans (ih (min a x)) (min_le_left a x)

lemma foldl_min_le_mem (l : List ℚ) (b : ℚ) : ∀ a : ℚ, b ∈ l → l.foldl min a ≤ b := by
  induction l with
  | nil => intro a h; simp at h
  | cons x xs ih =>
    intro a h
    rcases List.mem_cons.mp h with rfl | hx
    · calc (b :: xs).foldl min a = xs.foldl min (min a b) := rfl
        _ ≤ min a b := foldl_min_le_init xs (min a b)
        _ ≤ b := min_le_right a b
    · exact ih (min a x) hx

lemma foldl_min_eq_or_mem (l : List ℚ) : ∀ a : ℚ, l.foldl min a = a ∨ l.foldl min a ∈ l := by
  induction l with
  | nil => intro a; exact Or.inl rfl
  | cons x xs ih =>
    intro a
    rcases ih (min a x) with h | h
    · rcases min_choice a x with hax | hax
      · exact Or.inl (by rw [show (x :: xs).foldl min a = xs.foldl min (min a x) from rfl, h, hax])
      · refine Or.inr ?_
        rw [show (x :: xs).foldl min a = xs.foldl min (min a x) from rfl, h, hax]
        exact List.mem_cons_self x xs
    · exact Or.inr (List.mem_cons_of_mem x h)

lemma numExcluded_pos (n : ℕ) (idxs : List ℕ) (hne : idxs ≠ [])
    (hlt : ∀ i ∈ idxs, i < n) : 1 ≤ numExcluded n idxs := by
  obtain ⟨i0, t, rfl⟩ := List.exists_cons_of_ne_nil hne
  have hi0 : i0 ∈ (List.range (n + 1)).filter fun j => decide (j ∈ i0 :: t) := by
    apply List.mem_filter.mpr
    refine ⟨List.mem_range.mpr ?_, by simp⟩
    have := hlt i0 (by simp)
    omega
  have hpos := List.length_pos.mpr (List.ne_nil_of_mem hi0)
  unfold numExcluded
  omega

lemma numExcluded_le_length (n : ℕ) (idxs : List ℕ) :
    numExcluded n idxs ≤ idxs.length := by
  unfold numExcluded
  have hnd : ((List.range (n + 1)).filter fun j => decide (j ∈ idxs)).Nodup :=
    List.Nodup.filter _ (List.nodup_range (n + 1))
  calc ((List.range (n + 1)).filter fun j => decide (j ∈ idxs)).length
      = ((List.range (n + 1)).filter fun j => decide (j ∈ idxs)).toFinset.card := by
        rw [List.toFinset_card_of_nodup hnd]
    _ ≤ idxs.toFinset.card := by
        apply Finset.card_le_card
        intro x hx
        have hmem := List.mem_filter.mp (List.mem_toFinset.mp hx)
        exact List.mem_toFinset.mpr (by simpa using hmem.2)
    _ ≤ idxs.length := List.toFinset_card_le idxs

/-- C8 counterexample: a robustness draw is assumed NON-null, not null.  With
the external solver instantiated to sum the prior thresholds, priors
`[10, 20]` and the single draw `{0}`: the source keeps the complement — the
re-solve sees prior `[20]` and the minimum is `min(30, 20) = 20` — whereas the
spec's reading ("assuming only that subset is null") would keep the drawn
subset, see prior `[10]`, and return `min(30, 10) = 10`. -/
theorem C8_null_config_cex :
    getMinTStatThres envId [[1, 0, 0], [0, 1, 0], [0, 0, 1]] [10, 20] (1/20)
        [(0, [0])] = 20 ∧
    getMinTStatThresSpecRead envId [[1, 0, 0], [0, 1, 0], [0, 0, 1]] [10, 20] (1/20)
        [(0, [0])] = 10 ∧
    (20 : ℚ) ≠ 10 := by
  refine ⟨?_, ?_, by norm_num⟩ <;>
    norm_num [getMinTStatThres, getMinTStatThresSpecRead, drawThres, solveTStatThres,
      subsetTrueMask, maskMatrix, maskSelect, envId, List.range_succ, min_def]

/-- C8 (amended): with `num_tries > 0` draws and more than one prior
hypothesis, the solver re-solves once per random draw — each draw removing
between 1 and `num_hypos/2` prior hypotheses (the drawn subset, of size
`np.random.choice(num_hypos//2)+1` with replacement) from the assumed-null
configuration while the remaining priors and the current statistic stay
null — and returns the minimum threshold over the sampled configurations
together with the all-null case: the result is a lower bound of, and attained
by, the all-null threshold and the per-draw thresholds. -/
theorem C8_robustness_min (env : NumEnv) (estCov : List (List ℚ))
    (priorThres : List ℚ) (alphaLevel : ℚ) (draws : List (ℕ × List ℕ))
    (h2 : 2 ≤ priorThres.length) (hd : draws ≠ []) :
    (getMinTStatThres env estCov priorThres alphaLevel draws ≤
      solveTStatThres env estCov priorThres alphaLevel) ∧
    (∀ d ∈ draws, getMinTStatThres env estCov priorThres alphaLevel draws ≤
      drawThres env estCov priorThres alphaLevel d.2) ∧
    (getMinTStatThres env estCov priorThres alphaLevel draws =
        solveTStatThres env estCov priorThres alphaLevel ∨
      ∃ d ∈ draws, getMinTStatThres env estCov priorThres alphaLevel draws =
        drawThres env estCov priorThres alphaLevel d.2) ∧
    (∀ c idxs, (c, idxs) ∈ draws → validDraw priorThres.length (c, idxs) →
      1 ≤ numExcluded priorThres.length idxs ∧
      numExcluded priorThres.length idxs ≤ priorThres.length / 2) := by
  have hcond : ¬ (priorThres.length ≤ 1 ∨ draws.isEmpty = true) := by
    rintro (h | h)
    · omega
    · cases draws with
      | nil => exact hd rfl
      | cons d ds => simp [List.isEmpty] at h
  have hunf : getMinTStatThres env estCov priorThres alphaLevel draws =
      (draws.map fun d => drawThres env estCov priorThres alphaLevel d.2).foldl min
        (solveTStatThres env estCov priorThres alphaLevel) := by
    unfold getMinTStatThres
    rw [if_neg hcond]
  refine ⟨?_, ?_, ?_, ?_⟩
  · rw [hunf]
    exact foldl_min_le_init _ _
  · intro d hdin
    rw [hunf]
    exact foldl_min_le_mem _ _ _ (List.mem_map_of_mem _ hdin)
  · rw [hunf]
    rcases foldl_min_eq_or_mem
        (draws.map fun d => drawThres env estCov priorThres alphaLevel d.2)
        (solveTStatThres env estCov priorThres alphaLevel) with h | h
    · exact Or.inl h
    · obtain ⟨d, hdin, heq⟩ := List.mem_map.mp h
      exact Or.inr ⟨d, hdin, heq.symm⟩
  · intro c idxs hin hvalid
    obtain ⟨hsize, hlen, hbound⟩ := hvalid
    constructor
    · apply numExcluded_pos
      · intro hnil
        rw [hnil] at hlen
        simp at hlen
      · exact hbound
    · calc numExcluded priorThres.length idxs ≤ idxs.length :=
          numExcluded_le_length _ _
        _ = c + 1 := hlen
        _ ≤ priorThres.length / 2 := hsize

/-- Witness for C8 (amended) at the concrete input of the counterexample. -/
theorem C8_robustness_min_witness :
    (2 ≤ ([(10 : ℚ), 20]).length) ∧ (([((0 : ℕ), [0])] : List (ℕ × List ℕ)) ≠ []) ∧
    ((getMinTStatThres envId [[1, 0, 0], [0, 1, 0], [0, 0, 1]] [10, 20] (1/20)
        [(0, [0])] ≤
      solveTStatThres envId [[1, 0, 0], [0, 1, 0], [0, 0, 1]] [10, 20] (1/20)) ∧
    (∀ d ∈ ([((0 : ℕ), [0])] : List (ℕ × List ℕ)),
      getMinTStatThres envId [[1, 0, 0], [0, 1, 0], [0, 0, 1]] [10, 20] (1/20)
          [(0, [0])] ≤
        drawThres envId [[1, 0, 0], [0, 1, 0], [0, 0, 1]] [10, 20] (1/20) d.2) ∧
    (getMinTStatThres envId [[1, 0, 0], [0, 1, 0], [0, 0, 1]] [10, 20] (1/20)
          [(0, [0])] =
        solveTStatThres envId [[1, 0, 0], [0, 1, 0], [0, 0, 1]] [10, 20] (1/20) ∨
      ∃ d ∈ ([((0 : ℕ), [0])] : List (ℕ × List ℕ)),
        getMinTStatThres envId [[1, 0, 0], [0, 1, 0], [0, 0, 1]] [10, 20] (1/20)
            [(0, [0])] =
          drawThres envId [[1, 0, 0], [0, 1, 0], [0, 0, 1]] [10, 20] (1/20) d.2) ∧
    (∀ c idxs, (c, idxs) ∈ ([((0 : ℕ), [0])] : List (ℕ × List ℕ)) →
      validDraw ([(10 : ℚ), 20]).length (c, idxs) →
      1 ≤ numExcluded ([(10 : ℚ), 20]).length idxs ∧
      numExcluded ([(10 : ℚ), 20]).length idxs ≤ ([(10 : ℚ), 20]).length / 2)) :=
  ⟨by norm_num, by simp,
    C8_robustness_min envId [[1, 0, 0], [0, 1, 0], [0, 0, 1]] [10, 20] (1/20)
      [(0, [0])] (by norm_num) (by simp)⟩

/-- C7: the `GraphicalFFSMTP` decision flow.  When the current node's
already-tested siblings under the same parent (`parent.children[:idx]`) hold
stored loss vectors `Ls` and thresholds `Ts` and the node's local alpha is
set, `get_test_compare` solves the critical value from the correlation input
built from `Ls` plus the current loss-difference vector (the 1×1 identity
when no priors), the prior thresholds `Ts` and the local alpha; both the
observation vector and the solved threshold are stored on the current node by
the time `_do_tree_update` advances the tree with the decision
`test_stat < t_thres`. -/
theorem C7_ffs_threshold_flow (env : NumEnv) (s : TreeState)
    (testY predY prevPredY : List ℚ) (cur : BonfNode) (Ls : List (List ℚ))
    (Ts : List ℚ) (la : ℚ)
    (hc : s.siblings[s.parentChildIdx]? = some cur)
    (hL : (s.siblings.take s.parentChildIdx).map (fun c => c.testLosses) = Ls.map some)
    (hT : (s.siblings.take s.parentChildIdx).map (fun c => c.testThres) = Ts.map some)
    (hla : s.localAlpha = some la) :
    (let d := List.zipWith (fun a b => a - b) (get_losses env testY predY)
        (get_losses env testY prevPredY)
     let t0 := solveTStatThres env
        (if Ls.isEmpty then [[1]] else env.corrcoef (Ls ++ [d])) Ts la
     let r0 := decide (npMean d /
        env.sqrt (npVar d / (get_losses env testY prevPredY).length) < t0)
     let stored : BonfNode := { cur with testLosses := some d, testThres := some t0 }
     let s2 : TreeState := { s with siblings := s.siblings.set s.parentChildIdx stored }
     ffsGetTestCompare env s testY predY prevPredY =
       (doTreeUpdate s2 r0).map fun t => (r0, t)) := by
  dsimp only
  unfold ffsGetTestCompare
  rw [hc]
  dsimp only
  rw [take_set_eq, hL, hT, seqOpt_map_some, seqOpt_map_some, hla]
  dsimp only
  rw [List.set_set, getMin_nil_draws]
  cases Ls with
  | nil => rfl
  | cons L Lrest => rfl

/-- Witness for C7 at a concrete input: identity environment, the state
`ffsStateEx` (a fresh active node with no previously tested siblings), empty
data vectors. -/
theorem C7_ffs_threshold_flow_witness :
    (ffsStateEx.siblings[ffsStateEx.parentChildIdx]? =
      some ({ weight := 1/2 } : BonfNode)) ∧
    ((ffsStateEx.siblings.take ffsStateEx.parentChildIdx).map (fun c => c.testLosses) =
      ([] : List (List ℚ)).map some) ∧
    ((ffsStateEx.siblings.take ffsStateEx.parentChildIdx).map (fun c => c.testThres) =
      ([] : List ℚ).map some) ∧
    (ffsStateEx.localAlpha = some (1/20)) ∧
    (let d := List.zipWith (fun a b => a - b) (get_losses envId [] [])
        (get_losses envId [] [])
     let t0 := solveTStatThres envId
        (if ([] : List (List ℚ)).isEmpty then [[1]]
         else envId.corrcoef ([] ++ [d])) [] (1/20)
     let r0 := decide (npMean d /
        envId.sqrt (npVar d / (get_losses envId [] []).length) < t0)
     let stored : BonfNode := { ({ weight := 1/2 } : BonfNode) with
        testLosses := some d, testThres := some t0 }
     let newSibs := ffsStateEx.siblings.set ffsStateEx.parentChildIdx stored
     let s2 : TreeState := { ffsStateEx with siblings := newSibs }
     ffsGetTestCompare envId ffsStateEx [] [] [] =
       (doTreeUpdate s2 r0).map fun t => (r0, t)) :=
  ⟨rfl, rfl, rfl, rfl,
    C7_ffs_threshold_flow envId ffsStateEx [] [] [] { weight := 1/2 } [] [] (1/20)
      rfl rfl rfl rfl⟩
